import Mathlib

/-!
# `nativelog.c`: the native `print` function

A shallow embedding of `src/nativelog.c`.  The file has one function with
behaviour, `Print`, the callback registered under the name `print`.  It is
embedded statement by statement as `NativeLog.Print`.

The functions `Print` calls are not part of the repository: the Node-API
functions `napi_get_cb_info`, `napi_get_value_string_utf8` and
`napi_create_uint32`, and the C library's `malloc`, `write` and `assert`.
They are embedded from their documented behaviour:

* a JavaScript string is a `String` (a well-formed sequence of code points),
  its UTF-8 encoding is computed byte by byte (`utf8EncodeChar`); the engine
  holds strings of at most `kMaxLength` UTF-16 code units (`utf16Length`);
* machine integers are natural numbers: a `size_t` is reduced modulo
  `2 ^ SIZE_BITS`, a `uint32_t` modulo `2 ^ 32`, a byte is a number below 256;
* `malloc` and `write` are oracles carried by a `Host`: whether an allocation
  succeeds, what a fresh block contains, and how many bytes a write accepts;
* a block of memory is the list of its bytes; a store or a read outside the
  block (or through `NULL`) ends the run as `Outcome.undefinedBehaviour`;
* `assert` is active (no `NDEBUG`): a failed assertion ends the run as
  `Outcome.aborted`.
-/

namespace NativeLog

/-! ## Machine integers -/

/-- Width of `size_t` in bits (an LP64 platform). -/
def SIZE_BITS : Nat := 64

/-- Conversion of a mathematical integer to `size_t` (wrap-around). -/
def toSizeT (n : Nat) : Nat := n % 2 ^ SIZE_BITS

/-- Conversion to `uint32_t`, as in the implicit conversion of the `size_t`
argument of `napi_create_uint32`. -/
def toUint32 (n : Nat) : Nat := n % 2 ^ 32

/-! ## JavaScript values and Node-API status codes -/

/-- The JavaScript values a caller can pass (`napi_value`). -/
inductive napi_value where
  | undefined
  | null
  | boolean (b : Bool)
  | number (n : Int)
  | string (s : String)
  | object (id : Nat)
  deriving DecidableEq, Repr

/-- The status codes of the Node-API functions used by `Print`. -/
inductive napi_status where
  | napi_ok
  | napi_invalid_arg
  | napi_string_expected
  deriving DecidableEq, Repr

/-- Error kinds the specification names.  `Print` contains no statement that
produces one; they are here so that a claim about them can be stated. -/
inductive ErrorKind where
  | InvalidArgument
  | IOError
  deriving DecidableEq, Repr

/-- How a call of the native callback ends. -/
inductive Outcome where
  /-- the callback returns this value to JavaScript -/
  | returned (result : napi_value)
  /-- the callback reports an error to its caller (a pending exception) -/
  | raised (kind : ErrorKind)
  /-- an `assert` failed: the process is aborted -/
  | aborted
  /-- a store or read through `NULL` or outside the allocated block -/
  | undefinedBehaviour
  deriving DecidableEq, Repr

/-! ## UTF-8 -/

/-- UTF-8 encoding of one code point (RFC 3629), as bytes. -/
def utf8EncodeChar (c : Char) : List Nat :=
  let v := c.toNat
  if v < 0x80 then [v]
  else if v < 0x800 then [0xC0 + v / 0x40, 0x80 + v % 0x40]
  else if v < 0x10000 then
    [0xE0 + v / 0x1000, 0x80 + v / 0x40 % 0x40, 0x80 + v % 0x40]
  else
    [0xF0 + v / 0x40000, 0x80 + v / 0x1000 % 0x40, 0x80 + v / 0x40 % 0x40,
      0x80 + v % 0x40]

/-- UTF-8 encoding of a sequence of code points. -/
def utf8Bytes : List Char → List Nat
  | [] => []
  | c :: cs => utf8EncodeChar c ++ utf8Bytes cs

/-- UTF-8 encoding of a string. -/
def utf8Encode (s : String) : List Nat := utf8Bytes s.data

/-- The engine's `String::Utf8Length`: the number of bytes of the UTF-8
encoding. -/
def Utf8Length (s : String) : Nat := (utf8Encode s).length

/-- The engine's `String::WriteUtf8` with a capacity and without a
terminator: the encodings of the leading code points that fit in `capacity`
bytes; a code point is never split. -/
def WriteUtf8 : List Char → Nat → List Nat
  | [], _ => []
  | c :: cs, capacity =>
    if (utf8EncodeChar c).length ≤ capacity then
      utf8EncodeChar c ++ WriteUtf8 cs (capacity - (utf8EncodeChar c).length)
    else []

/-- The UTF-16 code units of one code point: two (a surrogate pair) outside
the basic plane. -/
def utf16Units (c : Char) : Nat := if c.toNat < 0x10000 then 1 else 2

/-- The engine's `String::Length`: the number of UTF-16 code units of a
string, the `length` JavaScript shows. -/
def utf16Length (s : String) : Nat := (s.data.map utf16Units).sum

/-- The engine's `String::kMaxLength`: no string has more UTF-16 code units. -/
def kMaxLength : Nat := 2 ^ 29 - 24

/-! ## The Node-API functions -/

/-- `napi_get_cb_info(env, info, &argc, argv, NULL, NULL)`: on entry `argc`
is the capacity of `argv`; on return `argv` holds the first `argc` call
arguments, the missing ones filled with `undefined`, and `argc` is the number
of arguments the call was made with. -/
def napi_get_cb_info (args : List napi_value) (argc : Nat) :
    napi_status × Nat × List napi_value :=
  (napi_status.napi_ok, args.length,
    (List.range argc).map (fun i => args.getD i napi_value.undefined))

/-- `napi_get_value_string_utf8(env, value, buf, bufsize, &result)`.
`Except.error` is a status other than `napi_ok`, with nothing stored.
With `buf = NULL` the length in bytes of the encoding is stored in `result`.
Otherwise at most `bufsize - 1` bytes are copied to `buf`, a NUL is stored
after them and the number of bytes copied is stored in `result`. -/
def napi_get_value_string_utf8 (value : napi_value) (buf : Option (List Nat))
    (bufsize : Nat) : Except napi_status (Option (List Nat) × Nat) :=
  match value with
  | napi_value.string s =>
    match buf with
    | none => Except.ok (none, Utf8Length s)
    | some b =>
      if bufsize ≠ 0 then
        let out := WriteUtf8 s.data (bufsize - 1)
        Except.ok (some ((out ++ b.drop out.length).set out.length 0), out.length)
      else Except.ok (some b, 0)
  | _ => Except.error napi_status.napi_string_expected

/-- `napi_create_uint32(env, value, &result)`: a JavaScript number holding the
`uint32_t` the argument converts to. -/
def napi_create_uint32 (value : Nat) : napi_status × napi_value :=
  (napi_status.napi_ok, napi_value.number (toUint32 value))

/-! ## The C library -/

/-- What the process around the call decides. -/
structure Host where
  /-- whether `malloc(size)` returns a block (rather than `NULL`) -/
  mallocOk : Nat → Bool
  /-- the byte found at each offset of a fresh, uninitialised block -/
  garbage : Nat → Nat
  /-- the result of `write(1, buf, count)` for the bytes presented:
  `none` is `-1` (an error), `some k` is `k` bytes accepted -/
  sink : List Nat → Option Nat

/-- What the call changes: standard output. -/
structure Process where
  /-- the bytes standard output has received, oldest first -/
  stdout : List Nat
  /-- the bytes presented by each call of `write`, oldest first -/
  writeLog : List (List Nat)
  deriving DecidableEq, Repr

/-- `malloc(size)`: `none` is `NULL`. -/
def malloc (h : Host) (size : Nat) : Option (List Nat) :=
  if h.mallocOk size then some ((List.range size).map h.garbage) else none

/-- The store `p[i] = v`; `none` when `p` is `NULL` or `i` is outside the
block. -/
def store (p : Option (List Nat)) (i : Nat) (v : Nat) : Option (List Nat) :=
  match p with
  | none => none
  | some b => if i < b.length then some (b.set i v) else none

/-- The effect of one `write` on standard output for the bytes `req`
presented, and the value `write` returns: `-1` when the output reports an
error, the number of bytes accepted otherwise. -/
def deliver (h : Host) (p : Process) (req : List Nat) : Process × Int :=
  match h.sink req with
  | none => ({ stdout := p.stdout, writeLog := p.writeLog ++ [req] }, -1)
  | some k =>
    ({ stdout := p.stdout ++ req.take k, writeLog := p.writeLog ++ [req] },
      ((min k req.length : Nat) : Int))

/-- `write(1, buf, count)`: `none` when `buf` is `NULL` or has fewer than
`count` bytes; otherwise the first `count` bytes of `buf` are presented to
standard output. -/
def write (h : Host) (p : Process) (buf : Option (List Nat)) (count : Nat) :
    Option (Process × Int) :=
  match buf with
  | none => none
  | some b => if count ≤ b.length then some (deliver h p (b.take count)) else none

/-! ## `Print` -/

/-- The function `Print` of `nativelog.c`, lines 9 to 35. -/
def Print (h : Host) (args : List napi_value) (p : Process) : Outcome × Process :=
  -- size_t argc = 1;
  -- status = napi_get_cb_info(env, info, &argc, &message, NULL, NULL);
  match napi_get_cb_info args 1 with
  | (status, _argc, argv) =>
    -- assert(status == napi_ok);
    if status ≠ napi_status.napi_ok then (Outcome.aborted, p) else
    let message := argv.headD napi_value.undefined
    -- status = napi_get_value_string_utf8(env, message, NULL, 0, &length);
    match napi_get_value_string_utf8 message none 0 with
    | Except.error _ => (Outcome.aborted, p)
    | Except.ok (_, length) =>
      -- status = napi_create_uint32(env, length, &result);
      match napi_create_uint32 length with
      | (status, result) =>
        if status ≠ napi_status.napi_ok then (Outcome.aborted, p) else
        -- char *bytes = malloc(length + 2);
        let bytes := malloc h (toSizeT (length + 2))
        -- status = napi_get_value_string_utf8(env, message, bytes, length + 2, &length);
        match napi_get_value_string_utf8 message bytes (toSizeT (length + 2)) with
        | Except.error _ => (Outcome.aborted, p)
        | Except.ok (bytes, length) =>
          -- bytes[length] = '\n';
          match store bytes length 10 with
          | none => (Outcome.undefinedBehaviour, p)
          | some b1 =>
            -- bytes[length + 1] = '\0';
            match store (some b1) (toSizeT (length + 1)) 0 with
            | none => (Outcome.undefinedBehaviour, p)
            | some b2 =>
              -- write(1, bytes, length + 1);   (the value returned is not used)
              match write h p (some b2) (toSizeT (length + 1)) with
              | none => (Outcome.undefinedBehaviour, p)
              | some (p2, _) =>
                -- free(bytes); return result;
                (Outcome.returned result, p2)

/-! ## Hosts and states used in examples -/

/-- A host whose allocations succeed and whose output accepts every write in
full. -/
def goodHost : Host :=
  { mallocOk := fun _ => true, garbage := fun i => (i * 37 + 5) % 256,
    sink := fun req => some req.length }

/-- A host whose output is closed: every write fails. -/
def closedHost : Host :=
  { mallocOk := fun _ => true, garbage := fun _ => 0xAA, sink := fun _ => none }

/-- A host whose output accepts one byte of each write. -/
def slowHost : Host :=
  { mallocOk := fun _ => true, garbage := fun _ => 0xAA, sink := fun _ => some 1 }

/-- A host that is out of memory. -/
def noMemoryHost : Host :=
  { mallocOk := fun _ => false, garbage := fun _ => 0, sink := fun req => some req.length }

/-- Standard output before anything was written. -/
def emptyProcess : Process := { stdout := [], writeLog := [] }

/-! ## Lemmas on the encoding -/

/-- The encoder on code points of one, two, three and four bytes. -/
theorem utf8EncodeChar_samples :
    utf8EncodeChar 'a' = [0x61] ∧ utf8EncodeChar 'é' = [0xC3, 0xA9] ∧
      utf8EncodeChar '€' = [0xE2, 0x82, 0xAC] ∧
      utf8EncodeChar '😀' = [0xF0, 0x9F, 0x98, 0x80] := by
  decide

theorem utf8EncodeChar_length_pos (c : Char) : 1 ≤ (utf8EncodeChar c).length := by
  unfold utf8EncodeChar
  simp only []
  split_ifs <;> simp

theorem utf8EncodeChar_length_eq_one (c : Char) :
    (utf8EncodeChar c).length = 1 ↔ c.toNat < 0x80 := by
  unfold utf8EncodeChar
  simp only []
  split_ifs with h1 h2 h3 <;> simp [h1]

theorem utf8EncodeChar_length_eq_utf8Size (c : Char) :
    (utf8EncodeChar c).length = c.utf8Size := by
  have hv : c.toNat = c.val.toNat := rfl
  have e1 : (c.val ≤ UInt32.ofNatCore 127 (by decide)) ↔ c.val.toNat < 0x80 :=
    ⟨fun h => Nat.lt_succ_of_le h, fun h => Nat.le_of_lt_succ h⟩
  have e2 : (c.val ≤ UInt32.ofNatCore 2047 (by decide)) ↔ c.val.toNat < 0x800 :=
    ⟨fun h => Nat.lt_succ_of_le h, fun h => Nat.le_of_lt_succ h⟩
  have e3 : (c.val ≤ UInt32.ofNatCore 65535 (by decide)) ↔ c.val.toNat < 0x10000 :=
    ⟨fun h => Nat.lt_succ_of_le h, fun h => Nat.le_of_lt_succ h⟩
  unfold utf8EncodeChar Char.utf8Size
  simp only [hv, e1, e2, e3]
  split_ifs <;> rfl

theorem utf8Bytes_length_eq_go (cs : List Char) :
    (utf8Bytes cs).length = String.utf8ByteSize.go cs := by
  induction cs with
  | nil => rfl
  | cons c cs ih =>
    simp only [utf8Bytes, List.length_append, String.utf8ByteSize.go, ih,
      utf8EncodeChar_length_eq_utf8Size]
    omega

/-- The byte length computed here is the library's `String.utf8ByteSize`. -/
theorem Utf8Length_eq_utf8ByteSize (s : String) : Utf8Length s = s.utf8ByteSize := by
  cases s with
  | mk cs => exact utf8Bytes_length_eq_go cs

theorem length_le_utf8Bytes_length (cs : List Char) :
    cs.length ≤ (utf8Bytes cs).length := by
  induction cs with
  | nil => simp [utf8Bytes]
  | cons c cs ih =>
    have := utf8EncodeChar_length_pos c
    simp only [utf8Bytes, List.length_cons, List.length_append]
    omega

theorem utf8Bytes_length_eq_iff (cs : List Char) :
    (utf8Bytes cs).length = cs.length ↔ ∀ c ∈ cs, c.toNat < 0x80 := by
  induction cs with
  | nil => simp [utf8Bytes]
  | cons c cs ih =>
    have h1 := utf8EncodeChar_length_pos c
    have h2 := length_le_utf8Bytes_length cs
    have h3 := utf8EncodeChar_length_eq_one c
    simp only [utf8Bytes, List.length_cons, List.length_append, List.mem_cons,
      forall_eq_or_imp]
    constructor
    · intro h
      have hc : (utf8EncodeChar c).length = 1 := by omega
      exact ⟨h3.mp hc, ih.mp (by omega)⟩
    · rintro ⟨hc, hcs⟩
      have := h3.mpr hc
      have := ih.mpr hcs
      omega

theorem utf8EncodeChar_length_le (c : Char) :
    (utf8EncodeChar c).length ≤ 3 * utf16Units c := by
  unfold utf8EncodeChar utf16Units
  simp only []
  split_ifs <;> simp

theorem utf8Bytes_length_le (cs : List Char) :
    (utf8Bytes cs).length ≤ 3 * (cs.map utf16Units).sum := by
  induction cs with
  | nil => simp [utf8Bytes]
  | cons c cs ih =>
    have hc := utf8EncodeChar_length_le c
    simp only [utf8Bytes, List.length_append, List.map_cons, List.sum_cons]
    omega

/-- A string the engine can hold has fewer than `2 ^ 32` bytes of UTF-8: a
UTF-16 code unit stands for at most three of them. -/
theorem Utf8Length_lt_of_le_kMaxLength (s : String) (hcap : utf16Length s ≤ kMaxLength) :
    Utf8Length s < 2 ^ 32 := by
  have hle : Utf8Length s ≤ 3 * utf16Length s := utf8Bytes_length_le s.data
  have hk : 3 * kMaxLength < 2 ^ 32 := by decide
  omega

theorem WriteUtf8_of_fits (cs : List Char) (capacity : Nat)
    (hfit : (utf8Bytes cs).length ≤ capacity) : WriteUtf8 cs capacity = utf8Bytes cs := by
  induction cs generalizing capacity with
  | nil => rfl
  | cons c cs ih =>
    simp only [utf8Bytes, List.length_append] at hfit
    have hc : (utf8EncodeChar c).length ≤ capacity := by omega
    simp only [WriteUtf8, utf8Bytes, hc, if_true]
    rw [ih _ (by omega)]


/-! ## The run of `Print` on a string -/

theorem toSizeT_of_lt (n : Nat) (hn : n < 2 ^ SIZE_BITS) : toSizeT n = n :=
  Nat.mod_eq_of_lt hn

theorem malloc_of_ok (h : Host) (size : Nat) (hmem : h.mallocOk size = true) :
    malloc h size = some ((List.range size).map h.garbage) := by
  simp [malloc, hmem]

/-- With a block of two bytes more than the encoding, the conversion copies
the whole encoding and reports its length. -/
theorem napi_get_value_string_utf8_fits (s : String) (block : List Nat)
    (hlen : block.length = Utf8Length s + 2) :
    ∃ g : Nat, napi_get_value_string_utf8 (napi_value.string s) (some block)
        (Utf8Length s + 2) = Except.ok (some (utf8Encode s ++ [0, g]), Utf8Length s) := by
  have hw : WriteUtf8 s.data (Utf8Length s + 2 - 1) = utf8Encode s :=
    WriteUtf8_of_fits _ _ (by simp only [Utf8Length, utf8Encode]; omega)
  have hd : (block.drop (Utf8Length s)).length = 2 := by
    rw [List.length_drop, hlen]; omega
  obtain ⟨x, g, hxg⟩ : ∃ x g, block.drop (Utf8Length s) = [x, g] := by
    match hb : block.drop (Utf8Length s), hd with
    | [x, g], _ => exact ⟨x, g, rfl⟩
  refine ⟨g, ?_⟩
  have hne : Utf8Length s + 2 ≠ 0 := by omega
  have hn : (utf8Encode s).length = Utf8Length s := rfl
  simp only [napi_get_value_string_utf8, hne, ne_eq, not_false_eq_true, if_true, hw, hn, hxg]
  rw [← hn, List.set_append_right _ _ (le_refl _)]
  simp

theorem store_newline (e : List Nat) (g : Nat) :
    store (some (e ++ [0, g])) e.length 10 = some (e ++ [10, g]) := by
  have hlt : e.length < (e ++ [0, g]).length := by simp
  simp only [store, hlt, if_true]
  rw [List.set_append_right _ _ (le_refl _)]
  simp

theorem store_terminator (e : List Nat) (g : Nat) :
    store (some (e ++ [10, g])) (e.length + 1) 0 = some (e ++ [10, 0]) := by
  have hlt : e.length + 1 < (e ++ [10, g]).length := by simp
  simp only [store, hlt, if_true]
  rw [List.set_append_right _ _ (by omega)]
  simp

theorem write_line (h : Host) (p : Process) (e : List Nat) :
    write h p (some (e ++ [10, 0])) (e.length + 1) = some (deliver h p (e ++ [10])) := by
  have hle : e.length + 1 ≤ (e ++ [10, 0]).length := by simp
  simp only [write, hle, if_true]
  rw [List.take_append_eq_append_take]
  simp [List.take_of_length_le (Nat.le_succ e.length)]

theorem napi_get_cb_info_one (v : napi_value) (rest : List napi_value) :
    napi_get_cb_info (v :: rest) 1 = (napi_status.napi_ok, rest.length + 1, [v]) := rfl

/-- The run of `Print` when its first argument is a string, the buffer size
does not wrap around and the allocation succeeds. -/
theorem Print_string (h : Host) (s : String) (rest : List napi_value) (p : Process)
    (hsize : Utf8Length s + 2 < 2 ^ SIZE_BITS)
    (hmem : h.mallocOk (Utf8Length s + 2) = true) :
    Print h (napi_value.string s :: rest) p =
      (Outcome.returned (napi_value.number (toUint32 (Utf8Length s))),
        (deliver h p (utf8Encode s ++ [10])).1) := by
  have hs2 : toSizeT (Utf8Length s + 2) = Utf8Length s + 2 := toSizeT_of_lt _ hsize
  have hs1 : toSizeT (Utf8Length s + 1) = Utf8Length s + 1 :=
    toSizeT_of_lt _ (by omega)
  obtain ⟨g, hg⟩ := napi_get_value_string_utf8_fits s
    ((List.range (Utf8Length s + 2)).map h.garbage) (by simp)
  have hq : napi_get_value_string_utf8 (napi_value.string s) none 0
      = Except.ok (none, Utf8Length s) := rfl
  have st1 := store_newline (utf8Encode s) g
  have st2 := store_terminator (utf8Encode s) g
  have wr := write_line h p (utf8Encode s)
  have hn : (utf8Encode s).length = Utf8Length s := rfl
  rw [hn] at st1 st2 wr
  unfold Print
  rw [napi_get_cb_info_one]
  simp only [List.headD_cons, hq, napi_create_uint32, hs2, hs1, malloc_of_ok h _ hmem, hg]
  simp [st1, st2, wr]

/-- The run of `Print` when its first argument is not a string. -/
theorem Print_not_string (h : Host) (v : napi_value) (rest : List napi_value) (p : Process)
    (hv : ∀ s, v ≠ napi_value.string s) :
    Print h (v :: rest) p = (Outcome.aborted, p) := by
  cases v with
  | string s => exact absurd rfl (hv s)
  | _ => rfl

theorem deliver_of_error (h : Host) (p : Process) (req : List Nat)
    (hfail : h.sink req = none) :
    (deliver h p req).1 = { stdout := p.stdout, writeLog := p.writeLog ++ [req] } := by
  simp [deliver, hfail]

theorem deliver_of_accepted (h : Host) (p : Process) (req : List Nat) (k : Nat)
    (hk : h.sink req = some k) :
    (deliver h p req).1 =
      { stdout := p.stdout ++ req.take k, writeLog := p.writeLog ++ [req] } := by
  simp [deliver, hk]

theorem deliver_writeLog (h : Host) (p : Process) (req : List Nat) :
    (deliver h p req).1.writeLog = p.writeLog ++ [req] := by
  unfold deliver
  cases h.sink req <;> rfl

theorem toUint32_eq_self_iff (n : Nat) : toUint32 n = n ↔ n < 2 ^ 32 := by
  unfold toUint32
  constructor
  · intro hn
    have := Nat.mod_lt n (show 0 < 2 ^ 32 by norm_num)
    omega
  · exact Nat.mod_eq_of_lt

theorem zero_mem_utf8Bytes (cs : List Char) (c : Char) (hc : c ∈ cs) (h0 : c.toNat = 0) :
    0 ∈ utf8Bytes cs := by
  induction cs with
  | nil => cases hc
  | cons d ds ih =>
    simp only [utf8Bytes, List.mem_append]
    rcases List.mem_cons.mp hc with rfl | hmem
    · left
      simp [utf8EncodeChar, h0]
    · exact Or.inr (ih hmem)

/-- Whatever the host does, the value `Print` returns for a string was made
from the length of its encoding converted to `uint32_t`. -/
theorem Print_returned_value (h : Host) (s : String) (rest : List napi_value) (p : Process)
    (v : napi_value) (hret : (Print h (napi_value.string s :: rest) p).1 = Outcome.returned v) :
    v = napi_value.number (toUint32 (Utf8Length s)) := by
  have hq : napi_get_value_string_utf8 (napi_value.string s) none 0
      = Except.ok (none, Utf8Length s) := rfl
  unfold Print at hret
  rw [napi_get_cb_info_one] at hret
  simp only [List.headD_cons, hq, napi_create_uint32] at hret
  split at hret
  · simp at hret
  · split at hret
    · simp at hret
    · split at hret
      · simp at hret
      · split at hret
        · simp at hret
        · split at hret
          · simp at hret
          · simpa using hret.symm

/-- No run of `Print` ends with an error raised to the caller. -/
theorem Print_never_raises (h : Host) (args : List napi_value) (p : Process)
    (kind : ErrorKind) : (Print h args p).1 ≠ Outcome.raised kind := by
  have hargv : napi_get_cb_info args 1
      = (napi_status.napi_ok, args.length, [args.getD 0 napi_value.undefined]) := rfl
  unfold Print
  rw [hargv]
  simp only [napi_create_uint32]
  repeat' split
  all_goals simp

/-- When the allocation fails, `Print` stores through `NULL`. -/
theorem Print_out_of_memory (h : Host) (s : String) (rest : List napi_value) (p : Process)
    (hmem : h.mallocOk (toSizeT (Utf8Length s + 2)) = false) :
    Print h (napi_value.string s :: rest) p = (Outcome.undefinedBehaviour, p) := by
  have hq : napi_get_value_string_utf8 (napi_value.string s) none 0
      = Except.ok (none, Utf8Length s) := rfl
  have hm : malloc h (toSizeT (Utf8Length s + 2)) = none := by simp [malloc, hmem]
  have hq2 : napi_get_value_string_utf8 (napi_value.string s) none (toSizeT (Utf8Length s + 2))
      = Except.ok (none, Utf8Length s) := rfl
  unfold Print
  rw [napi_get_cb_info_one]
  simp only [List.headD_cons, hq, napi_create_uint32, hm, hq2]
  simp [store]

/-- The result of `malloc` is not tested: out of memory, the run on `"ab"`
stores through `NULL` and nothing is written. -/
theorem Print_noMemoryHost :
    Print noMemoryHost [napi_value.string "ab"] emptyProcess
      = (Outcome.undefinedBehaviour, emptyProcess) := by
  decide

/-! ## The claims -/

/-- Claim C1: for every string `s` the engine can hold (at most `kMaxLength`
UTF-16 code units), of UTF-8 byte length `n`, passed as the single argument,
when the allocation succeeds and standard output accepts the whole write,
`Print` returns `n` and appends to standard output exactly `n + 1` bytes, the
bytes of `s` followed by `0x0A`, presented in one write.  `n` is the library's
`String.utf8ByteSize`.  For the empty string `Print` returns `0` and writes
the one byte `0x0A`. -/
theorem Print_returns_length_and_writes_line (h : Host) (s : String) (p : Process)
    (hcap : utf16Length s ≤ kMaxLength)
    (hmem : h.mallocOk (Utf8Length s + 2) = true)
    (hsink : h.sink (utf8Encode s ++ [10]) = some (Utf8Length s + 1)) :
    Print h [napi_value.string s] p =
        (Outcome.returned (napi_value.number (Utf8Length s)),
          { stdout := p.stdout ++ (utf8Encode s ++ [10]),
            writeLog := p.writeLog ++ [utf8Encode s ++ [10]] })
      ∧ (utf8Encode s ++ [10]).length = Utf8Length s + 1
      ∧ Utf8Length s = s.utf8ByteSize := by
  have hlen := Utf8Length_lt_of_le_kMaxLength s hcap
  have hsize : Utf8Length s + 2 < 2 ^ SIZE_BITS := by
    have : (2 : Nat) ^ 32 + 2 < 2 ^ SIZE_BITS := by decide
    omega
  refine ⟨?_, by simp [Utf8Length], Utf8Length_eq_utf8ByteSize s⟩
  rw [Print_string h s [] p hsize hmem, deliver_of_accepted h p _ _ hsink,
    (toUint32_eq_self_iff _).mpr hlen]
  have htake : (utf8Encode s ++ [10]).take (Utf8Length s + 1) = utf8Encode s ++ [10] :=
    List.take_of_length_le (by simp [Utf8Length])
  rw [htake]

/-- Claim C1, the empty string: with the allocation succeeding and the output
accepting the write, `Print` returns `0` and writes the one byte `0x0A`. -/
theorem Print_returns_length_and_writes_line_witness :
    utf16Length "" ≤ kMaxLength ∧ goodHost.mallocOk (Utf8Length "" + 2) = true ∧
      goodHost.sink (utf8Encode "" ++ [10]) = some (Utf8Length "" + 1) ∧
      Print goodHost [napi_value.string ""] emptyProcess =
        (Outcome.returned (napi_value.number 0), { stdout := [10], writeLog := [[10]] }) :=
  ⟨by decide, rfl, rfl,
    (Print_returns_length_and_writes_line goodHost "" emptyProcess (by decide) rfl rfl).1⟩

/-- Claim C2, as the code has it: called with no argument, or with one
argument that is not a string, `Print` ends in a failed assertion that aborts
the process (no error is raised to the caller); standard output is left as it
was and no write is attempted. -/
theorem Print_aborts_without_string (h : Host) (args : List napi_value) (p : Process)
    (hargs : args = [] ∨ ∃ v, args = [v] ∧ ∀ s, v ≠ napi_value.string s) :
    Print h args p = (Outcome.aborted, p) := by
  rcases hargs with rfl | ⟨v, rfl, hv⟩
  · rfl
  · exact Print_not_string h v [] p hv

/-- Claim C2 on the number `7` passed alone: the process is aborted and
nothing is written. -/
theorem Print_aborts_without_string_witness :
    ([napi_value.number 7] = [] ∨
        ∃ v, [napi_value.number 7] = [v] ∧ ∀ s, v ≠ napi_value.string s) ∧
      Print goodHost [napi_value.number 7] emptyProcess = (Outcome.aborted, emptyProcess) :=
  ⟨Or.inr ⟨napi_value.number 7, rfl, fun _ hs => napi_value.noConfusion hs⟩,
    Print_aborts_without_string goodHost [napi_value.number 7] emptyProcess
      (Or.inr ⟨napi_value.number 7, rfl, fun _ hs => napi_value.noConfusion hs⟩)⟩

/-- Claim C2 as stated fails: called with no argument, `Print` does not raise
`InvalidArgument`; the run ends as `Outcome.aborted`. -/
theorem Print_no_argument_not_raised :
    ¬ ((Print goodHost [] emptyProcess).1 = Outcome.raised ErrorKind.InvalidArgument ∧
        (Print goodHost [] emptyProcess).2.stdout = emptyProcess.stdout) := by
  decide

/-- Claim C3, as the code has it: arguments after the first are ignored, a
call with several arguments runs as the call with the first argument alone. -/
theorem Print_ignores_extra_arguments (h : Host) (v : napi_value)
    (rest : List napi_value) (p : Process) :
    Print h (v :: rest) p = Print h [v] p := by
  unfold Print
  rw [napi_get_cb_info_one, napi_get_cb_info_one]

/-- Claim C3 as stated fails: called with the two strings `"a"` and `"b"`,
`Print` returns the byte count `1` and writes `a`, `0x0A`; it does not raise
`InvalidArgument`. -/
theorem Print_two_arguments_returns_count :
    Print goodHost [napi_value.string "a", napi_value.string "b"] emptyProcess
        = (Outcome.returned (napi_value.number 1),
            { stdout := [97, 10], writeLog := [[97, 10]] }) ∧
      (Print goodHost [napi_value.string "a", napi_value.string "b"] emptyProcess).1
        ≠ Outcome.raised ErrorKind.InvalidArgument := by
  decide

/-- Claim C4, as the code has it: the value `write` returns is not used.
When the write to standard output fails, `Print` still returns the byte length
(as a `uint32_t`), raises no error, and standard output has received nothing;
the one write presented the bytes of `s` followed by `0x0A`. -/
theorem Print_ignores_write_failure (h : Host) (s : String) (p : Process)
    (hsize : Utf8Length s + 2 < 2 ^ SIZE_BITS)
    (hmem : h.mallocOk (Utf8Length s + 2) = true)
    (hfail : h.sink (utf8Encode s ++ [10]) = none) :
    Print h [napi_value.string s] p =
        (Outcome.returned (napi_value.number (toUint32 (Utf8Length s))),
          { stdout := p.stdout, writeLog := p.writeLog ++ [utf8Encode s ++ [10]] })
      ∧ ∀ kind, (Print h [napi_value.string s] p).1 ≠ Outcome.raised kind := by
  have hrun := Print_string h s [] p hsize hmem
  rw [deliver_of_error h p _ hfail] at hrun
  refine ⟨hrun, fun kind => ?_⟩
  rw [hrun]
  exact fun hk => Outcome.noConfusion hk

/-- Claim C4 on the string `"a"` with standard output closed. -/
theorem Print_ignores_write_failure_witness :
    Utf8Length "a" + 2 < 2 ^ SIZE_BITS ∧ closedHost.mallocOk (Utf8Length "a" + 2) = true ∧
      closedHost.sink (utf8Encode "a" ++ [10]) = none ∧
      Print closedHost [napi_value.string "a"] emptyProcess =
        (Outcome.returned (napi_value.number 1), { stdout := [], writeLog := [[97, 10]] }) :=
  ⟨by decide, rfl, rfl,
    (Print_ignores_write_failure closedHost "a" emptyProcess (by decide) rfl rfl).1⟩

/-- Claim C4 as stated fails: with standard output closed (every write fails),
`Print` on the string `"a"` returns `1`; it does not raise `IOError`. -/
theorem Print_closed_output_returns :
    closedHost.sink [97, 10] = none ∧
      (Print closedHost [napi_value.string "a"] emptyProcess).1
        = Outcome.returned (napi_value.number 1) ∧
      (Print closedHost [napi_value.string "a"] emptyProcess).1
        ≠ Outcome.raised ErrorKind.IOError := by
  decide

/-- Claim C5, as the code has it: `Print` calls `write` once, for the `n + 1`
bytes of the line, and never presents a remainder again.  When standard output
accepts `k` bytes of that write, exactly the first `k` bytes of the line (all
of it when `n + 1 ≤ k`) are appended and `Print` returns normally; the whole
line is written exactly when `n + 1 ≤ k`. -/
theorem Print_issues_one_write (h : Host) (s : String) (p : Process) (k : Nat)
    (hsize : Utf8Length s + 2 < 2 ^ SIZE_BITS)
    (hmem : h.mallocOk (Utf8Length s + 2) = true)
    (hshort : h.sink (utf8Encode s ++ [10]) = some k) :
    Print h [napi_value.string s] p =
        (Outcome.returned (napi_value.number (toUint32 (Utf8Length s))),
          { stdout := p.stdout ++ (utf8Encode s ++ [10]).take k,
            writeLog := p.writeLog ++ [utf8Encode s ++ [10]] })
      ∧ ((utf8Encode s ++ [10]).take k = utf8Encode s ++ [10] ↔ Utf8Length s + 1 ≤ k) := by
  have hrun := Print_string h s [] p hsize hmem
  rw [deliver_of_accepted h p _ k hshort] at hrun
  refine ⟨hrun, ?_⟩
  rw [List.take_eq_self_iff]
  simp [Utf8Length]

/-- Claim C5 on the string `"ab"` with an output that accepts one byte of
each write: one write of `a`, `b`, `0x0A` is presented, `a` alone is written
and `Print` returns `2`. -/
theorem Print_issues_one_write_witness :
    Utf8Length "ab" + 2 < 2 ^ SIZE_BITS ∧ slowHost.mallocOk (Utf8Length "ab" + 2) = true ∧
      slowHost.sink (utf8Encode "ab" ++ [10]) = some 1 ∧
      Print slowHost [napi_value.string "ab"] emptyProcess =
        (Outcome.returned (napi_value.number 2),
          { stdout := [97], writeLog := [[97, 98, 10]] }) :=
  ⟨by decide, rfl, rfl,
    (Print_issues_one_write slowHost "ab" emptyProcess 1 (by decide) rfl rfl).1⟩

/-- Claim C5 as stated fails: with an output that accepts one byte of each
write, `Print` on the string `"ab"` returns normally and has written the
proper prefix `a` of the line `a`, `b`, `0x0A`. -/
theorem Print_short_write_leaves_prefix :
    slowHost.sink [97, 98, 10] = some 1 ∧
      (Print slowHost [napi_value.string "ab"] emptyProcess).1
        = Outcome.returned (napi_value.number 2) ∧
      (Print slowHost [napi_value.string "ab"] emptyProcess).2.stdout = [97] ∧
      (Print slowHost [napi_value.string "ab"] emptyProcess).2.stdout
        ≠ utf8Encode "ab" ++ [10] := by
  decide

/-- Claim C6: for every string `s` the engine can hold (at most `kMaxLength`
UTF-16 code units), when the allocation succeeds, `Print` returns the number
`n` of bytes of the UTF-8 encoding of `s`, not the number of code points; `n`
is at least the number of code points of `s`, and equal to it exactly when
every code point of `s` is ASCII.  For `"café"` it returns `5`, not `4`. -/
theorem Print_returns_byte_count (h : Host) (s : String) (p : Process)
    (hcap : utf16Length s ≤ kMaxLength)
    (hmem : h.mallocOk (Utf8Length s + 2) = true) :
    (Print h [napi_value.string s] p).1
        = Outcome.returned (napi_value.number (utf8Encode s).length)
      ∧ (utf8Encode s).length = s.utf8ByteSize
      ∧ s.length ≤ (utf8Encode s).length
      ∧ ((utf8Encode s).length = s.length ↔ ∀ c ∈ s.data, c.toNat < 0x80) := by
  have hlen := Utf8Length_lt_of_le_kMaxLength s hcap
  have hsize : Utf8Length s + 2 < 2 ^ SIZE_BITS := by
    have : (2 : Nat) ^ 32 + 2 < 2 ^ SIZE_BITS := by decide
    omega
  refine ⟨?_, Utf8Length_eq_utf8ByteSize s, length_le_utf8Bytes_length s.data,
    utf8Bytes_length_eq_iff s.data⟩
  rw [Print_string h s [] p hsize hmem, (toUint32_eq_self_iff _).mpr hlen]
  rfl

/-- Claim C6 on `"café"`: four code points, five bytes, and `Print` returns
`5`. -/
theorem Print_returns_byte_count_witness :
    utf16Length "café" ≤ kMaxLength ∧ goodHost.mallocOk (Utf8Length "café" + 2) = true ∧
      "café".length = 4 ∧
      (Print goodHost [napi_value.string "café"] emptyProcess).1
        = Outcome.returned (napi_value.number 5) :=
  ⟨by decide, rfl, by decide,
    (Print_returns_byte_count goodHost "café" emptyProcess (by decide) rfl).1⟩

/-- Claim C7: for every string `s` the engine can hold (at most `kMaxLength`
UTF-16 code units), of UTF-8 byte length `n`, when the allocation succeeds and
standard output accepts the whole write, the bytes `w` that `Print` writes are
`n + 1` bytes whose first `n` are the bytes of `s` unchanged, `w` has exactly
one byte `0x0A` more than `s` (also when `s` ends with one), its last byte is
`0x0A`, and `Print` returns `n`.  For `"a\nb"` the output is `a`, `0x0A`, `b`,
`0x0A` and `Print` returns `3`. -/
theorem Print_keeps_newlines (h : Host) (s : String) (p : Process)
    (hcap : utf16Length s ≤ kMaxLength)
    (hmem : h.mallocOk (Utf8Length s + 2) = true)
    (hsink : h.sink (utf8Encode s ++ [10]) = some (Utf8Length s + 1)) :
    ∃ w : List Nat,
      Print h [napi_value.string s] p =
        (Outcome.returned (napi_value.number (Utf8Length s)),
          { stdout := p.stdout ++ w, writeLog := p.writeLog ++ [w] })
      ∧ w.length = Utf8Length s + 1
      ∧ w.take (Utf8Length s) = utf8Encode s
      ∧ w.count 10 = (utf8Encode s).count 10 + 1
      ∧ w.getLast? = some 10 := by
  have hlen := Utf8Length_lt_of_le_kMaxLength s hcap
  have hsize : Utf8Length s + 2 < 2 ^ SIZE_BITS := by
    have : (2 : Nat) ^ 32 + 2 < 2 ^ SIZE_BITS := by decide
    omega
  have htake : (utf8Encode s ++ [10]).take (Utf8Length s + 1) = utf8Encode s ++ [10] :=
    List.take_of_length_le (by simp [Utf8Length])
  refine ⟨utf8Encode s ++ [10], ?_, by simp [Utf8Length], ?_, by simp, by simp⟩
  · rw [Print_string h s [] p hsize hmem, deliver_of_accepted h p _ _ hsink,
      (toUint32_eq_self_iff _).mpr hlen, htake]
  · exact List.take_left' rfl

/-- Claim C7 on `"a\nb"`: the four bytes `a`, `0x0A`, `b`, `0x0A` are written
and `Print` returns `3`. -/
theorem Print_keeps_newlines_witness :
    utf16Length "a\nb" ≤ kMaxLength ∧ goodHost.mallocOk (Utf8Length "a\nb" + 2) = true ∧
      goodHost.sink (utf8Encode "a\nb" ++ [10]) = some (Utf8Length "a\nb" + 1) ∧
      ∃ w : List Nat,
        Print goodHost [napi_value.string "a\nb"] emptyProcess =
          (Outcome.returned (napi_value.number 3),
            { stdout := [] ++ w, writeLog := [] ++ [w] })
        ∧ w.length = 3 + 1
        ∧ w.take 3 = [97, 10, 98]
        ∧ w.count 10 = [97, 10, 98].count 10 + 1
        ∧ w.getLast? = some 10 :=
  ⟨by decide, rfl, rfl,
    Print_keeps_newlines goodHost "a\nb" emptyProcess (by decide) rfl rfl⟩

/-- Claim C8: for a string `s` of UTF-8 byte length `n` with `n + 2` below
`2 ^ SIZE_BITS` and the allocation succeeding, the block has `n + 2` bytes;
the second conversion, given that capacity, copies the whole encoding (the
`n + 1` bytes it may copy are enough) and reports the length `n` that the
size-only query reported; the stores at `n` and `n + 1` and the read of
`n + 1` bytes by `write` are inside the block, and the run of `Print` does
not end as `Outcome.undefinedBehaviour`. -/
theorem Print_buffer_bounds (h : Host) (s : String) (p : Process)
    (hsize : Utf8Length s + 2 < 2 ^ SIZE_BITS)
    (hmem : h.mallocOk (Utf8Length s + 2) = true) :
    ∃ block buf b1 b2 : List Nat,
      malloc h (toSizeT (Utf8Length s + 2)) = some block
      ∧ block.length = Utf8Length s + 2
      ∧ napi_get_value_string_utf8 (napi_value.string s) none 0
          = Except.ok (none, Utf8Length s)
      ∧ WriteUtf8 s.data (toSizeT (Utf8Length s + 2) - 1) = utf8Encode s
      ∧ napi_get_value_string_utf8 (napi_value.string s) (some block)
          (toSizeT (Utf8Length s + 2)) = Except.ok (some buf, Utf8Length s)
      ∧ buf.length = Utf8Length s + 2
      ∧ buf.take (Utf8Length s) = utf8Encode s
      ∧ store (some buf) (Utf8Length s) 10 = some b1
      ∧ store (some b1) (toSizeT (Utf8Length s + 1)) 0 = some b2
      ∧ b2.length = Utf8Length s + 2
      ∧ toSizeT (Utf8Length s + 1) ≤ b2.length
      ∧ (write h p (some b2) (toSizeT (Utf8Length s + 1))).isSome = true
      ∧ (Print h [napi_value.string s] p).1 ≠ Outcome.undefinedBehaviour := by
  have hs2 : toSizeT (Utf8Length s + 2) = Utf8Length s + 2 := toSizeT_of_lt _ hsize
  have hs1 : toSizeT (Utf8Length s + 1) = Utf8Length s + 1 :=
    toSizeT_of_lt _ (by omega)
  obtain ⟨g, hg⟩ := napi_get_value_string_utf8_fits s
    ((List.range (Utf8Length s + 2)).map h.garbage) (by simp)
  have hn : (utf8Encode s).length = Utf8Length s := rfl
  have st1 := store_newline (utf8Encode s) g
  have st2 := store_terminator (utf8Encode s) g
  have wr := write_line h p (utf8Encode s)
  rw [hn] at st1 st2 wr
  refine ⟨(List.range (Utf8Length s + 2)).map h.garbage, utf8Encode s ++ [0, g],
    utf8Encode s ++ [10, g], utf8Encode s ++ [10, 0], ?_, by simp, rfl, ?_, ?_, by simp [hn],
    List.take_left' rfl, st1, ?_, by simp [hn], ?_, ?_, ?_⟩
  · rw [hs2]; exact malloc_of_ok h _ hmem
  · rw [hs2]
    exact WriteUtf8_of_fits _ _ (by simp only [Utf8Length, utf8Encode]; omega)
  · rw [hs2]; exact hg
  · rw [hs1]; exact st2
  · rw [hs1]; simp [hn]
  · rw [hs1, wr]; rfl
  · rw [Print_string h s [] p hsize hmem]
    exact fun hk => Outcome.noConfusion hk

/-- Claim C8 on `"café"`: the run does not leave the block of seven bytes. -/
theorem Print_buffer_bounds_witness :
    Utf8Length "café" + 2 < 2 ^ SIZE_BITS ∧
      goodHost.mallocOk (Utf8Length "café" + 2) = true ∧
      (malloc goodHost (toSizeT (Utf8Length "café" + 2))).map List.length = some 7 ∧
      (Print goodHost [napi_value.string "café"] emptyProcess).1
        ≠ Outcome.undefinedBehaviour :=
  ⟨by decide, rfl, by decide,
    match Print_buffer_bounds goodHost "café" emptyProcess (by decide) rfl with
    | ⟨_, _, _, _, hrun⟩ => hrun.2.2.2.2.2.2.2.2.2.2.2.2⟩

/-- Claim C9: for a string of UTF-8 byte length `n`, a value that `Print`
returns is `n mod 2 ^ 32`, whatever the host does; and with `n + 2` below
`2 ^ SIZE_BITS` and the allocation succeeding `Print` does return
`n mod 2 ^ 32`, which is `n` exactly when `n < 2 ^ 32`, while the one write it
makes presents `n + 1` bytes, a count taken from `n` itself. -/
theorem Print_returns_uint32 (h : Host) (s : String) (p : Process) :
    (∀ v, (Print h [napi_value.string s] p).1 = Outcome.returned v →
        v = napi_value.number ((Utf8Length s % 2 ^ 32 : Nat) : Int))
      ∧ (Utf8Length s + 2 < 2 ^ SIZE_BITS → h.mallocOk (Utf8Length s + 2) = true →
          (Print h [napi_value.string s] p).1
              = Outcome.returned (napi_value.number ((Utf8Length s % 2 ^ 32 : Nat) : Int))
            ∧ ((Print h [napi_value.string s] p).1
                = Outcome.returned (napi_value.number (Utf8Length s))
                  ↔ Utf8Length s < 2 ^ 32)
            ∧ ∃ req : List Nat,
                (Print h [napi_value.string s] p).2.writeLog = p.writeLog ++ [req]
                ∧ req.length = Utf8Length s + 1) := by
  refine ⟨fun v hv => Print_returned_value h s [] p v hv, fun hsize hmem => ?_⟩
  have hrun := Print_string h s [] p hsize hmem
  refine ⟨by rw [hrun]; rfl, ?_, utf8Encode s ++ [10], ?_, by simp [Utf8Length]⟩
  · rw [hrun, ← toUint32_eq_self_iff]
    constructor
    · intro heq
      have hnum := napi_value.number.inj (Outcome.returned.inj heq)
      exact Int.ofNat.inj hnum
    · intro heq
      simp only [heq]
  · rw [hrun]
    exact deliver_writeLog h p _

/-- Claim C9 on `"café"`: `Print` returns `5 mod 2 ^ 32 = 5` and presents six
bytes to `write`. -/
theorem Print_returns_uint32_witness :
    Utf8Length "café" + 2 < 2 ^ SIZE_BITS ∧
      goodHost.mallocOk (Utf8Length "café" + 2) = true ∧
      (Print goodHost [napi_value.string "café"] emptyProcess).1
        = Outcome.returned (napi_value.number 5) :=
  ⟨by decide, rfl,
    ((Print_returns_uint32 goodHost "café" emptyProcess).2 (by decide) rfl).1⟩

/-- Claim C10: for a string `s` of UTF-8 byte length `n` (with `n + 2` below
`2 ^ SIZE_BITS` and the allocation succeeding) the one write `Print` makes
presents exactly the `n + 1` bytes of `s` followed by `0x0A`; the NUL stored
after the newline is not part of it, and a code point U+0000 of `s` is a zero
byte inside it, so the count does not stop at the first NUL.  The last byte
presented is `0x0A`, and an output that accepts the write receives all of
it. -/
theorem Print_write_request (h : Host) (s : String) (p : Process)
    (hsize : Utf8Length s + 2 < 2 ^ SIZE_BITS)
    (hmem : h.mallocOk (Utf8Length s + 2) = true) :
    (Print h [napi_value.string s] p).2.writeLog = p.writeLog ++ [utf8Encode s ++ [10]]
      ∧ (utf8Encode s ++ [10]).length = Utf8Length s + 1
      ∧ (utf8Encode s ++ [10]).getLast? = some 10
      ∧ (∀ c ∈ s.data, c.toNat = 0 → 0 ∈ utf8Encode s)
      ∧ (∀ k, h.sink (utf8Encode s ++ [10]) = some k → Utf8Length s + 1 ≤ k →
          (Print h [napi_value.string s] p).2.stdout = p.stdout ++ (utf8Encode s ++ [10])) := by
  have hrun := Print_string h s [] p hsize hmem
  refine ⟨?_, by simp [Utf8Length], by simp, fun c hc h0 => zero_mem_utf8Bytes _ c hc h0,
    fun k hk hle => ?_⟩
  · rw [hrun]
    exact deliver_writeLog h p _
  · rw [hrun, deliver_of_accepted h p _ k hk]
    have htake : (utf8Encode s ++ [10]).take k = utf8Encode s ++ [10] :=
      List.take_of_length_le (by simpa [Utf8Length] using hle)
    simp only [htake]

/-- Claim C10 on the string `a`, U+0000, `b`: the write presents the four
bytes `a`, `0x00`, `b`, `0x0A`, and all four are written. -/
theorem Print_write_request_witness :
    Utf8Length "a\x00b" + 2 < 2 ^ SIZE_BITS ∧
      goodHost.mallocOk (Utf8Length "a\x00b" + 2) = true ∧
      (Print goodHost [napi_value.string "a\x00b"] emptyProcess).2.writeLog
        = [[97, 0, 98, 10]] ∧
      (Print goodHost [napi_value.string "a\x00b"] emptyProcess).2.stdout
        = [97, 0, 98, 10] :=
  ⟨by decide, rfl,
    (Print_write_request goodHost "a\x00b" emptyProcess (by decide) rfl).1,
    (Print_write_request goodHost "a\x00b" emptyProcess (by decide) rfl).2.2.2.2
      4 rfl (by decide)⟩

end NativeLog
